import Mathlib

/-!
Shallow embedding of `scripts/compare_xls2csv.py`, the differential-testing
harness that renders spreadsheet sheets to CSV text and canonicalizes that
text for comparison.  Python strings are embedded as Lean `String`
(character lists where character-level reasoning is needed), Python floats
as a symbolic domain (`PyFloat`) distinguishing finite values from NaN and
infinities, and the external collaborators (the `xlrd` decoding library and
the Python standard library) as an explicit record of functions (`Ext`)
threaded through every operation that the script delegates to them.
-/

namespace XlrdCompare

/-- A Python float, embedded symbolically: either a finite value (embedded as a
rational), NaN, or an infinity.  The sign of an infinity is immaterial to every
operation the script performs (`math.isinf` ignores it), so it is not tracked. -/
inductive PyFloat where
  | finite (q : ℚ)
  | nan
  | inf
deriving DecidableEq

/-- A Python runtime value as it can appear as a cell value in the decoded
workbook model: a string, a float, an integer (boolean and error cells carry
ints), or `None`. -/
inductive PyVal where
  | str (s : String)
  | num (f : PyFloat)
  | intv (n : ℤ)
  | none
deriving DecidableEq

/-- Python truthiness for the embedded value domain (`if value:`): empty string,
zero, and `None` are falsy; everything else (including NaN and infinities) is
truthy. -/
def pyTruthy : PyVal → Bool
  | .str s => s ≠ ""
  | .num f => f ≠ PyFloat.finite 0
  | .intv n => n ≠ 0
  | .none => false

/-- A calendar date-time as produced by the date-serial conversion collaborator
(`datetime.datetime`).  Only its existence matters to the harness: it is
produced by `Ext.xldate_as_datetime` and consumed by `Ext.strftime`. -/
structure PyDatetime where
  year : ℤ
  month : Nat
  day : Nat
  hour : Nat
  minute : Nat
  second : Nat
deriving DecidableEq

/-- A numeric-format record of the workbook (`xlrd`'s `Format`): holds the
format string (may be empty). -/
structure Format where
  format_str : String
deriving DecidableEq

/-- An extended-format record of the workbook (`xlrd`'s `XF`): carries the
format key resolving a cell style to a numeric format. -/
structure XF where
  format_key : ℤ
deriving DecidableEq

/-- The decoded workbook model the script consumes: the extended-format list
`xf_list`, the numeric-format table `format_map` (a format-key → `Format`
dictionary, embedded as an association list), and the date epoch selector
`datemode` (0 = 1900-based, 1 = 1904-based). -/
structure Book where
  xf_list : List XF
  format_map : List (ℤ × Format)
  datemode : Nat

/-- One decoded cell: the stored type tag (`xlrd`'s `XL_CELL_*` numeric
constants), the raw value, and the cell's extended-format index. -/
structure Cell where
  ctype : Nat
  value : PyVal
  xf : ℤ
deriving DecidableEq

/-- A decoded sheet: its rows (each a list of cells, rows may have different
declared lengths) and the declared column count `ncols`. -/
structure Sheet where
  rows : List (List Cell)
  ncols : Nat

/-- Modelled from the spec: the operations the script delegates to external
collaborators whose code is not part of the compared sources — the `xlrd`
decoding library (`formatting.is_date_format_string`, `xldate_as_datetime`
which fails on an out-of-range date serial, `error_text_from_code`) and the
Python standard library (`float` parsing of strings, `repr` of floats,
printf-style `%` formatting, `datetime.strftime`).  Theorems quantify over
this record, so they hold for every implementation of the collaborators. -/
structure Ext where
  float_of_str : String → Option PyFloat
  float_repr : PyFloat → String
  printf_float : String → PyFloat → String
  is_date_format_string : Book → String → Bool
  xldate_as_datetime : ℚ → Nat → Option PyDatetime
  strftime : PyDatetime → String → String
  error_text_from_code : PyVal → Option String

/-- Python `str(value)` on the embedded value domain. -/
def pyStr (ext : Ext) : PyVal → String
  | .str s => s
  | .num f => ext.float_repr f
  | .intv n => toString n
  | .none => "None"

/-- Python `float(value)`: `some` on success, `Option.none` when the conversion
raises `TypeError` (on `None`) or `ValueError` (on a non-numeric string). -/
def pyFloatOf (ext : Ext) : PyVal → Option PyFloat
  | .str s => ext.float_of_str s
  | .num f => some f
  | .intv n => some (PyFloat.finite (n : ℚ))
  | .none => Option.none

/-- Modelled from the spec: `xlrd`'s cell-type constant `XL_CELL_EMPTY`. -/
def XL_CELL_EMPTY : Nat := 0

/-- Modelled from the spec: `xlrd`'s cell-type constant `XL_CELL_TEXT`. -/
def XL_CELL_TEXT : Nat := 1

/-- Modelled from the spec: `xlrd`'s cell-type constant `XL_CELL_NUMBER`. -/
def XL_CELL_NUMBER : Nat := 2

/-- Modelled from the spec: `xlrd`'s cell-type constant `XL_CELL_DATE`. -/
def XL_CELL_DATE : Nat := 3

/-- Modelled from the spec: `xlrd`'s cell-type constant `XL_CELL_BOOLEAN`. -/
def XL_CELL_BOOLEAN : Nat := 4

/-- Modelled from the spec: `xlrd`'s cell-type constant `XL_CELL_ERROR`. -/
def XL_CELL_ERROR : Nat := 5

/-- Modelled from the spec: `xlrd`'s cell-type constant `XL_CELL_BLANK`. -/
def XL_CELL_BLANK : Nat := 6

/-- The default cell used for out-of-range accesses; the script only ever
accesses cells inside a row's declared length, so this default is never
consulted by the embedded call patterns. -/
def defaultCell : Cell := ⟨XL_CELL_EMPTY, PyVal.none, -1⟩

/-- `sheet.nrows`. -/
def Sheet.nrows (sheet : Sheet) : Nat := sheet.rows.length

/-- `sheet.row_len(rowx)`. -/
def Sheet.row_len (sheet : Sheet) (rowx : Nat) : Nat :=
  (sheet.rows.getD rowx []).length

/-- The cell at `(rowx, colx)`. -/
def Sheet.cellAt (sheet : Sheet) (rowx colx : Nat) : Cell :=
  (sheet.rows.getD rowx []).getD colx defaultCell

/-- `sheet.cell_type(rowx, colx)`. -/
def Sheet.cell_type (sheet : Sheet) (rowx colx : Nat) : Nat :=
  (sheet.cellAt rowx colx).ctype

/-- `sheet.cell_value(rowx, colx)`. -/
def Sheet.cell_value (sheet : Sheet) (rowx colx : Nat) : PyVal :=
  (sheet.cellAt rowx colx).value

/-- `sheet.cell_xf_index(rowx, colx)`. -/
def Sheet.cell_xf_index (sheet : Sheet) (rowx colx : Nat) : ℤ :=
  (sheet.cellAt rowx colx).xf

/-- The module constant `BUILTIN_DATE_FORMATS`. -/
def BUILTIN_DATE_FORMATS : List ℤ :=
  [14, 15, 16, 17, 18, 19, 20, 21, 22, 27, 30, 36, 50, 57, 58]

/-- `is_date_cell(book, xf_index)`. -/
def is_date_cell (ext : Ext) (book : Book) (xf_index : ℤ) : Bool :=
  if xf_index < 0 ∨ (book.xf_list.length : ℤ) ≤ xf_index then false
  else
    let fmt_key := (book.xf_list.getD xf_index.toNat ⟨0⟩).format_key
    if BUILTIN_DATE_FORMATS.contains fmt_key then true
    else
      match book.format_map.lookup fmt_key with
      | Option.none => false
      | some fmt =>
        if fmt.format_str = "" then false
        else ext.is_date_format_string book fmt.format_str

/-- `format_float(value, float_format)`. -/
def format_float (ext : Ext) (value : PyVal) (float_format : String) : String :=
  match pyFloatOf ext value with
  | Option.none => match value with
    | PyVal.none => ""
    | v => pyStr ext v
  | some val =>
    if float_format ≠ "" then ext.printf_float float_format val
    else ext.float_repr val

/-- `format_date(value, datemode, date_format)`. -/
def format_date (ext : Ext) (value : PyVal) (datemode : Nat)
    (date_format : String) : String :=
  match pyFloatOf ext value with
  | Option.none => ""
  | some PyFloat.nan => ""
  | some PyFloat.inf => ""
  | some (PyFloat.finite val) =>
    match ext.xldate_as_datetime val datemode with
    | Option.none => ""
    | some dt =>
      if date_format ≠ "" then ext.strftime dt date_format
      else ext.strftime dt "%Y-%m-%d %H:%M:%S"

/-- `format_cell(book, sheet, rowx, colx, date_format, float_format)`. -/
def format_cell (ext : Ext) (book : Book) (sheet : Sheet) (rowx colx : Nat)
    (date_format float_format : String) : String :=
  let ctype := sheet.cell_type rowx colx
  let value := sheet.cell_value rowx colx
  if ctype = XL_CELL_TEXT then
    match value with
    | PyVal.none => ""
    | v => pyStr ext v
  else if ctype = XL_CELL_DATE then
    format_date ext value book.datemode date_format
  else if ctype = XL_CELL_NUMBER then
    if is_date_cell ext book (sheet.cell_xf_index rowx colx) then
      format_date ext value book.datemode date_format
    else format_float ext value float_format
  else if ctype = XL_CELL_BOOLEAN then
    if pyTruthy value then "TRUE" else "FALSE"
  else if ctype = XL_CELL_ERROR then
    (ext.error_text_from_code value).getD "#ERROR"
  else if ctype = XL_CELL_EMPTY ∨ ctype = XL_CELL_BLANK then ""
  else
    match value with
    | PyVal.none => ""
    | v => pyStr ext v

/-- Python `value.replace(c, r)` for a one-character pattern `c`. -/
def replaceAllChar (c : Char) (r : List Char) : List Char → List Char
  | [] => []
  | x :: xs => if x = c then r ++ replaceAllChar c r xs else x :: replaceAllChar c r xs

/-- Python `text.replace(a ++ b, r)` specialised to the two-character pattern
used by the script: the left-to-right, non-overlapping replacement of the
carriage-return/line-feed pair by a line feed. -/
def replaceCRLF : List Char → List Char
  | [] => []
  | [c] => [c]
  | c₁ :: c₂ :: rest =>
    if c₁ = '\r' ∧ c₂ = '\n' then '\n' :: replaceCRLF rest
    else c₁ :: replaceCRLF (c₂ :: rest)

/-- `quote_field(value, delimiter)`; the delimiter is embedded as a single
character (the script always passes a one-character delimiter string). -/
def quote_field (value : Option String) (delimiter : Char) : String :=
  let v := match value with
    | Option.none => ""
    | some s => s
  let needs_quote : Bool := v.toList.contains delimiter || v.toList.contains '"'
    || v.toList.contains '\r' || v.toList.contains '\n'
  if needs_quote then
    "\"" ++ String.mk (replaceAllChar '"' ['"', '"'] v.toList) ++ "\""
  else v

/-- `is_empty_csv_row(line, delimiter)`. -/
def is_empty_csv_row (line : List Char) (delimiter : Char) : Bool :=
  line.all (fun ch => ch = delimiter || ch = '"')

/-- The `while lines and p(lines[-1]): lines.pop()` loop of `normalize_csv`:
drop the longest run of trailing lines satisfying `p`. -/
def dropTrailingWhile (p : List Char → Bool) (ls : List (List Char)) :
    List (List Char) :=
  (ls.reverse.dropWhile p).reverse

/-- The line-ending unification step of `normalize_csv`:
`text.replace(CRLF, LF).replace(CR, LF)`. -/
def unify_newlines (text : List Char) : List Char :=
  replaceAllChar '\r' ['\n'] (replaceCRLF text)

/-- The line list `normalize_csv` retains: split the unified text on line
feeds, pop trailing empty lines, then pop trailing blank rows. -/
def normalize_lines (text : List Char) (delimiter : Char) :
    List (List Char) :=
  dropTrailingWhile (fun l => is_empty_csv_row l delimiter)
    (dropTrailingWhile (fun l => l.isEmpty) ((unify_newlines text).splitOn '\n'))

/-- `normalize_csv(text, delimiter)`. -/
def normalize_csv (text : String) (delimiter : Char) : String :=
  if normalize_lines text.toList delimiter = [] then ""
  else String.mk (['\n'].intercalate (normalize_lines text.toList delimiter) ++ ['\n'])

/-- The `ctype not in (XL_CELL_EMPTY, XL_CELL_BLANK)` test of
`sheet_max_cols`. -/
def cell_nonempty (sheet : Sheet) (rowx colx : Nat) : Bool :=
  !(sheet.cell_type rowx colx == XL_CELL_EMPTY
    || sheet.cell_type rowx colx == XL_CELL_BLANK)

/-- `sheet_max_cols(sheet)`. -/
def sheet_max_cols (sheet : Sheet) : Nat :=
  let max_cols := (List.range sheet.nrows).foldl (fun max_cols rowx =>
    let row_max := (List.range (sheet.row_len rowx)).foldl (fun row_max colx =>
      if cell_nonempty sheet rowx colx then colx + 1 else row_max) 0
    if max_cols < row_max then row_max else max_cols) 0
  if max_cols = 0 then sheet.ncols else max_cols

/-- `sheet_to_csv_string(book, sheet, date_format, float_format, delimiter)`;
the `io.StringIO` buffer is embedded as a string accumulator. -/
def sheet_to_csv_string (ext : Ext) (book : Book) (sheet : Sheet)
    (date_format float_format : String) (delimiter : Char) : String :=
  let max_cols := sheet_max_cols sheet
  (List.range sheet.nrows).foldl (fun buf rowx =>
    let fields := (List.range max_cols).foldl (fun fields colx =>
      let text := if sheet.row_len rowx ≤ colx then ""
        else format_cell ext book sheet rowx colx date_format float_format
      fields ++ [quote_field (some text) delimiter]) []
    buf ++ (String.intercalate (String.singleton delimiter) fields ++ "\n")) ""

/-- A concrete instantiation of the external collaborators, used to witness
theorems at closed inputs: its format-string classifier rejects everything,
its date conversion always fails, and its error-code table is empty. -/
def extTest : Ext :=
  ⟨fun _ => Option.none, fun _ => "", fun _ _ => "",
   fun _ _ => false, fun _ _ => Option.none, fun _ _ => "", fun _ => Option.none⟩

/-- A concrete workbook: one XF entry with the built-in date format key 14,
whose format table maps key 14 to a non-date format string. -/
def bookTest : Book := ⟨[⟨14⟩], [(14, ⟨"General"⟩)], 0⟩

/-- A concrete sheet holding a single error cell with an unrecognized code. -/
def sheetErr : Sheet := ⟨[[⟨XL_CELL_ERROR, PyVal.intv 99, 0⟩]], 1⟩

/-- The line list of an LF-terminated text: split on the line feed and discard
the final piece when it is empty (Python `splitlines` restricted to texts with
unified line endings). -/
def splitlinesLF (l : List Char) : List (List Char) :=
  let ps := l.splitOn '\n'
  if ps.getLast? = some [] then ps.dropLast else ps

/-- The one-based positions (column index + 1) of every non-empty, non-blank
cell of the sheet, row by row, restricted to each row's declared length. -/
def nonempty_cols (sheet : Sheet) : List Nat :=
  (List.range sheet.nrows).flatMap (fun rowx =>
    ((List.range (sheet.row_len rowx)).filter (fun colx =>
      cell_nonempty sheet rowx colx)).map (fun colx => colx + 1))

/-- The quoted field list the script emits for one row: one field per column of
the effective column count, the empty field for columns at or beyond the row's
declared length, the formatted cell otherwise. -/
def sheet_row_fields (ext : Ext) (book : Book) (sheet : Sheet)
    (date_format float_format : String) (delimiter : Char) (rowx : Nat) : List String :=
  (List.range (sheet_max_cols sheet)).map (fun colx =>
    quote_field (some (if sheet.row_len rowx ≤ colx then ""
      else format_cell ext book sheet rowx colx date_format float_format)) delimiter)

/-- A concrete sheet used to witness the row shape: the second row is shorter
than the effective column count. -/
def sheetTest : Sheet :=
  ⟨[[⟨XL_CELL_TEXT, PyVal.str "a", 0⟩, ⟨XL_CELL_TEXT, PyVal.str "b", 0⟩],
    [⟨XL_CELL_TEXT, PyVal.str "c", 0⟩]], 2⟩

end XlrdCompare

namespace XlrdCompare

/-! ### Concrete instances used by witnesses -/

/-! ### C1 and C10: date classification of style indices -/

/-- C1: for every workbook and every in-range xf_index whose XF entry carries a
format key in the built-in date set, `is_date_cell` returns true — for every
workbook format table and every behaviour of the format-string classifier, so
the format-string table is never consulted for these keys. -/
theorem c1_is_date_cell_builtin (ext : Ext) (book : Book) (xf_index : ℤ)
    (h0 : 0 ≤ xf_index) (h1 : xf_index < (book.xf_list.length : ℤ))
    (hk : (book.xf_list.getD xf_index.toNat ⟨0⟩).format_key ∈ BUILTIN_DATE_FORMATS) :
    is_date_cell ext book xf_index = true := by
  have hg : ¬(xf_index < 0 ∨ (book.xf_list.length : ℤ) ≤ xf_index) := by omega
  simp only [is_date_cell, if_neg hg]
  rw [if_pos]
  exact List.elem_iff.mpr hk

/-- Witness for C1: key 14 is classified as a date even though the workbook's
format table maps it to the non-date string "General" and the classifier
instance rejects every format string. -/
theorem c1_witness : is_date_cell extTest bookTest 0 = true :=
  c1_is_date_cell_builtin extTest bookTest 0 (by decide) (by decide) (by decide)

/-- C10: for every workbook and every negative or too-large xf_index,
`is_date_cell` returns false — for every content of the xf list and the format
table and for every classifier behaviour, so neither is consulted. -/
theorem c10_is_date_cell_out_of_range (ext : Ext) (book : Book) (xf_index : ℤ)
    (h : xf_index < 0 ∨ (book.xf_list.length : ℤ) ≤ xf_index) :
    is_date_cell ext book xf_index = false := by
  simp only [is_date_cell, if_pos h]

/-- Witness for C10: a negative style index degrades to the non-date
classification. -/
theorem c10_witness : is_date_cell extTest bookTest (-1) = false :=
  c10_is_date_cell_out_of_range extTest bookTest (-1) (Or.inl (by decide))

/-! ### C7: error handling of date-serial formatting -/

/-- C7: `format_date` returns the empty string when the value is not parseable
as a float, is NaN or infinite, or is rejected by the date-serial conversion
(the out-of-range case, `XLDateError`); otherwise it renders the converted
date-time with the supplied pattern, or with the fixed default pattern
`%Y-%m-%d %H:%M:%S` when no pattern is supplied. -/
theorem c7_format_date_error_handling (ext : Ext) (value : PyVal)
    (datemode : Nat) (date_format : String) :
    (pyFloatOf ext value = Option.none →
      format_date ext value datemode date_format = "")
    ∧ (pyFloatOf ext value = some PyFloat.nan →
      format_date ext value datemode date_format = "")
    ∧ (pyFloatOf ext value = some PyFloat.inf →
      format_date ext value datemode date_format = "")
    ∧ (∀ val : ℚ, pyFloatOf ext value = some (PyFloat.finite val) →
        (ext.xldate_as_datetime val datemode = Option.none →
          format_date ext value datemode date_format = "")
        ∧ ∀ dt : PyDatetime, ext.xldate_as_datetime val datemode = some dt →
            format_date ext value datemode date_format =
              ext.strftime dt
                (if date_format = "" then "%Y-%m-%d %H:%M:%S" else date_format)) := by
  refine ⟨fun h => by simp [format_date, h], fun h => by simp [format_date, h],
    fun h => by simp [format_date, h], fun val h => ⟨fun h2 => by simp [format_date, h, h2],
    fun dt h2 => ?_⟩⟩
  by_cases hd : date_format = ""
  · simp [format_date, h, h2, hd]
  · simp [format_date, h, h2, hd]

/-- Witness for C7: a NaN serial degrades to the empty string. -/
theorem c7_witness : format_date extTest (PyVal.num PyFloat.nan) 0 "" = "" :=
  (c7_format_date_error_handling extTest (PyVal.num PyFloat.nan) 0 "").2.1 rfl

/-! ### C9: formatting of error, boolean, empty and blank cells -/

/-- C9: for error cells `format_cell` returns the human-readable token of the
error code and the literal "#ERROR" when the code is unrecognized; boolean
cells render exactly as "TRUE" or "FALSE"; empty and blank cells render as the
empty string. -/
theorem c9_format_cell_tags (ext : Ext) (book : Book) (sheet : Sheet)
    (rowx colx : Nat) (date_format float_format : String) :
    (sheet.cell_type rowx colx = XL_CELL_ERROR →
      ((∀ t : String,
          ext.error_text_from_code (sheet.cell_value rowx colx) = some t →
          format_cell ext book sheet rowx colx date_format float_format = t)
        ∧ (ext.error_text_from_code (sheet.cell_value rowx colx) = Option.none →
          format_cell ext book sheet rowx colx date_format float_format = "#ERROR")))
    ∧ (sheet.cell_type rowx colx = XL_CELL_BOOLEAN →
        format_cell ext book sheet rowx colx date_format float_format = "TRUE"
        ∨ format_cell ext book sheet rowx colx date_format float_format = "FALSE")
    ∧ (sheet.cell_type rowx colx = XL_CELL_EMPTY →
        format_cell ext book sheet rowx colx date_format float_format = "")
    ∧ (sheet.cell_type rowx colx = XL_CELL_BLANK →
        format_cell ext book sheet rowx colx date_format float_format = "") := by
  refine ⟨fun h => ⟨fun t ht => ?_, fun ht => ?_⟩, fun h => ?_, fun h => ?_, fun h => ?_⟩
  · simp [format_cell, h, XL_CELL_ERROR, XL_CELL_TEXT, XL_CELL_DATE, XL_CELL_NUMBER,
      XL_CELL_BOOLEAN, ht]
  · simp [format_cell, h, XL_CELL_ERROR, XL_CELL_TEXT, XL_CELL_DATE, XL_CELL_NUMBER,
      XL_CELL_BOOLEAN, ht]
  · by_cases hb : pyTruthy (sheet.cell_value rowx colx)
    · left
      simp [format_cell, h, XL_CELL_BOOLEAN, XL_CELL_TEXT, XL_CELL_DATE, XL_CELL_NUMBER, hb]
    · right
      simp [format_cell, h, XL_CELL_BOOLEAN, XL_CELL_TEXT, XL_CELL_DATE, XL_CELL_NUMBER, hb]
  · simp [format_cell, h, XL_CELL_EMPTY, XL_CELL_TEXT, XL_CELL_DATE, XL_CELL_NUMBER,
      XL_CELL_BOOLEAN, XL_CELL_ERROR]
  · simp [format_cell, h, XL_CELL_BLANK, XL_CELL_TEXT, XL_CELL_DATE, XL_CELL_NUMBER,
      XL_CELL_BOOLEAN, XL_CELL_ERROR]

/-- Witness for C9: an error cell with the unrecognized code 99 renders as
"#ERROR" under the empty error-code table. -/
theorem c9_witness : format_cell extTest bookTest sheetErr 0 0 "" "" = "#ERROR" :=
  ((c9_format_cell_tags extTest bookTest sheetErr 0 0 "" "").1 (by decide)).2 rfl

end XlrdCompare

namespace XlrdCompare

/-! ### Helper lemmas on dropWhile-based trailing trimming -/

theorem dropWhile_sfx {α : Type} (p : α → Bool) :
    ∀ l : List α, ∃ t, l = t ++ l.dropWhile p := by
  intro l
  induction l with
  | nil => exact ⟨[], rfl⟩
  | cons a l ih =>
    cases hp : p a
    · exact ⟨[], by simp [List.dropWhile_cons, hp]⟩
    · obtain ⟨t, ht⟩ := ih
      exact ⟨a :: t, by simp [List.dropWhile_cons, hp]; exact ht⟩

theorem head?_dropWhile_false {α : Type} (p : α → Bool) :
    ∀ (l : List α) {a : α}, (l.dropWhile p).head? = some a → p a = false := by
  intro l
  induction l with
  | nil => intro a h; simp at h
  | cons b l ih =>
    intro a h
    cases hb : p b
    · rw [List.dropWhile_cons] at h
      simp only [hb, Bool.false_eq_true, if_false, List.head?_cons] at h
      cases h
      exact hb
    · rw [List.dropWhile_cons] at h
      simp only [hb, if_true] at h
      exact ih h

theorem dropWhile_eq_self_of_head? {α : Type} (p : α → Bool) (l : List α) (a : α)
    (h : l.head? = some a) (hp : p a = false) : l.dropWhile p = l := by
  cases l with
  | nil => simp at h
  | cons b l =>
    simp only [List.head?_cons] at h
    cases h
    simp [List.dropWhile_cons, hp]

theorem dropTrailingWhile_pfx (p : List Char → Bool) (ls : List (List Char)) :
    dropTrailingWhile p ls <+: ls := by
  obtain ⟨t, ht⟩ := dropWhile_sfx p ls.reverse
  refine ⟨t.reverse, ?_⟩
  rw [dropTrailingWhile, ← List.reverse_append, ← ht, List.reverse_reverse]

theorem dropTrailingWhile_getLast? (p : List Char → Bool) (ls : List (List Char))
    (x : List Char) (h : (dropTrailingWhile p ls).getLast? = some x) : p x = false := by
  rw [dropTrailingWhile, List.getLast?_reverse] at h
  exact head?_dropWhile_false p ls.reverse h

theorem dropTrailingWhile_eq_self (p : List Char → Bool) (ls : List (List Char))
    (x : List Char) (h : ls.getLast? = some x) (hp : p x = false) :
    dropTrailingWhile p ls = ls := by
  rw [dropTrailingWhile, dropWhile_eq_self_of_head? p ls.reverse x (by rw [List.head?_reverse]; exact h) hp,
    List.reverse_reverse]

theorem dropTrailingWhile_concat_true (p : List Char → Bool) (ls : List (List Char))
    (a : List Char) (hp : p a = true) :
    dropTrailingWhile p (ls ++ [a]) = dropTrailingWhile p ls := by
  rw [dropTrailingWhile, dropTrailingWhile, List.reverse_append]
  simp [List.dropWhile_cons, hp]

end XlrdCompare

namespace XlrdCompare

/-! ### Helper lemmas on intercalate and splitOn -/

theorem intercalate_one {α : Type} (x : α) (a : List α) :
    [x].intercalate [a] = a := by
  simp [List.intercalate]

theorem intercalate_two {α : Type} (x : α) (a b : List α) (ls : List (List α)) :
    [x].intercalate (a :: b :: ls) = a ++ x :: [x].intercalate (b :: ls) := by
  simp [List.intercalate, List.intersperse_cons_cons]

theorem mem_intercalate_self {α : Type} (x : α) {c : α} :
    ∀ {ls : List (List α)} {l : List α}, c ∈ l → l ∈ ls → c ∈ [x].intercalate ls := by
  intro ls
  induction ls with
  | nil => intro l _ hl; simp at hl
  | cons a ls ih =>
    intro l hc hl
    cases ls with
    | nil =>
      simp only [List.mem_singleton] at hl
      rw [intercalate_one, ← hl]
      exact hc
    | cons b ls =>
      rw [intercalate_two]
      rcases List.mem_cons.mp hl with h1 | h1
      · exact List.mem_append_left _ (h1 ▸ hc)
      · exact List.mem_append_right _ (List.mem_cons_of_mem x (ih hc h1))

theorem mem_intercalate_cases {α : Type} (x : α) {c : α} :
    ∀ {ls : List (List α)}, c ∈ [x].intercalate ls → c = x ∨ ∃ l ∈ ls, c ∈ l := by
  intro ls
  induction ls with
  | nil => intro h; simp [List.intercalate] at h
  | cons a ls ih =>
    intro h
    cases ls with
    | nil =>
      rw [intercalate_one] at h
      exact Or.inr ⟨a, List.mem_singleton_self a, h⟩
    | cons b ls =>
      rw [intercalate_two] at h
      rcases List.mem_append.mp h with h1 | h1
      · exact Or.inr ⟨a, List.mem_cons_self a _, h1⟩
      · rcases List.mem_cons.mp h1 with h2 | h2
        · exact Or.inl h2
        · rcases ih h2 with h3 | ⟨l, hl, hcl⟩
          · exact Or.inl h3
          · exact Or.inr ⟨l, List.mem_cons_of_mem a hl, hcl⟩

theorem intercalate_concat_nil {α : Type} (x : α) :
    ∀ {ls : List (List α)}, ls ≠ [] →
      [x].intercalate (ls ++ [([] : List α)]) = [x].intercalate ls ++ [x] := by
  intro ls
  induction ls with
  | nil => intro h; exact absurd rfl h
  | cons a ls ih =>
    intro _
    cases ls with
    | nil =>
      rw [List.singleton_append, intercalate_two, intercalate_one, intercalate_one]
    | cons b ls =>
      have e1 : (a :: b :: ls) ++ [([] : List α)] = a :: b :: (ls ++ [[]]) := rfl
      have e2 : b :: (ls ++ [([] : List α)]) = (b :: ls) ++ [[]] := rfl
      rw [e1, intercalate_two x a b (ls ++ [[]]), e2, ih (List.cons_ne_nil b ls),
        intercalate_two x a b ls]
      simp [List.append_assoc]

theorem not_mem_of_mem_splitOn {α : Type} [DecidableEq α] {x : α} :
    ∀ {l piece : List α}, piece ∈ l.splitOn x → x ∉ piece := by
  have key : ∀ (l : List α) (piece : List α),
      piece ∈ l.splitOnP (fun a => a == x) → x ∉ piece := by
    intro l
    induction l with
    | nil =>
      intro piece h
      simp only [List.splitOnP_nil, List.mem_singleton] at h
      simp [h]
    | cons a l ih =>
      intro piece h
      rw [List.splitOnP_cons] at h
      cases ha : (a == x)
      · rw [ha] at h
        simp only [Bool.false_eq_true, if_false] at h
        rcases he : l.splitOnP (fun a => a == x) with _ | ⟨hd, tl⟩
        · exact absurd he (List.splitOnP_ne_nil _ l)
        · rw [he, List.modifyHead_cons] at h
          rcases List.mem_cons.mp h with h1 | h1
          · subst h1
            intro hx
            rcases List.mem_cons.mp hx with h2 | h2
            · rw [h2] at ha; simp at ha
            · exact ih hd (he ▸ List.mem_cons_self hd tl) h2
          · exact ih piece (he ▸ List.mem_cons_of_mem hd h1)
      · rw [ha] at h
        simp only [if_true] at h
        rcases List.mem_cons.mp h with h1 | h1
        · simp [h1]
        · exact ih piece h1
  intro l piece h
  exact key l piece (by simpa [List.splitOn] using h)

theorem subset_of_mem_splitOn {α : Type} [DecidableEq α] {x c : α} {l piece : List α}
    (hm : piece ∈ l.splitOn x) (hc : c ∈ piece) : c ∈ l := by
  have := mem_intercalate_self x hc hm
  rwa [List.intercalate_splitOn] at this

end XlrdCompare

namespace XlrdCompare

/-! ### Helper lemmas on the line-ending replacements -/

theorem not_mem_replaceAllChar {c : Char} {r : List Char} (hc : c ∉ r) :
    ∀ l : List Char, c ∉ replaceAllChar c r l := by
  intro l
  induction l with
  | nil => simp [replaceAllChar]
  | cons x xs ih =>
    by_cases hx : x = c
    · rw [replaceAllChar, if_pos hx]
      intro h
      rcases List.mem_append.mp h with h1 | h1
      · exact hc h1
      · exact ih h1
    · rw [replaceAllChar, if_neg hx]
      intro h
      rcases List.mem_cons.mp h with h1 | h1
      · exact hx h1.symm
      · exact ih h1

theorem replaceAllChar_of_not_mem {c : Char} {r : List Char} :
    ∀ {l : List Char}, c ∉ l → replaceAllChar c r l = l := by
  intro l
  induction l with
  | nil => intro _; rfl
  | cons x xs ih =>
    intro h
    have hx : ¬x = c := fun he => h (he ▸ List.mem_cons_self x xs)
    rw [replaceAllChar, if_neg hx, ih (fun hm => h (List.mem_cons_of_mem x hm))]

theorem replaceCRLF_of_no_cr : ∀ {l : List Char}, '\r' ∉ l → replaceCRLF l = l
  | [], _ => rfl
  | [c], _ => rfl
  | c₁ :: c₂ :: rest, h => by
    have h1 : ¬(c₁ = '\r' ∧ c₂ = '\n') := by
      rintro ⟨hc, -⟩
      exact h (hc ▸ List.mem_cons_self c₁ (c₂ :: rest))
    rw [replaceCRLF, if_neg h1,
      replaceCRLF_of_no_cr (fun hm => h (List.mem_cons_of_mem c₁ hm))]

theorem unify_newlines_no_cr (l : List Char) : '\r' ∉ unify_newlines l :=
  not_mem_replaceAllChar (by decide) (replaceCRLF l)

theorem unify_newlines_of_no_cr {l : List Char} (h : '\r' ∉ l) :
    unify_newlines l = l := by
  rw [unify_newlines, replaceCRLF_of_no_cr h, replaceAllChar_of_not_mem h]

end XlrdCompare

namespace XlrdCompare

/-! ### Structure of the retained line list -/

theorem normalize_lines_pfx (t : List Char) (d : Char) :
    normalize_lines t d <+: (unify_newlines t).splitOn '\n' :=
  (dropTrailingWhile_pfx _ _).trans (dropTrailingWhile_pfx _ _)

theorem mem_normalize_lines {t : List Char} {d : Char} {l : List Char}
    (h : l ∈ normalize_lines t d) : '\n' ∉ l ∧ '\r' ∉ l := by
  have hA : l ∈ (unify_newlines t).splitOn '\n' :=
    (normalize_lines_pfx t d).sublist.subset h
  refine ⟨not_mem_of_mem_splitOn hA, fun hr => ?_⟩
  exact unify_newlines_no_cr t (subset_of_mem_splitOn hA hr)

theorem normalize_lines_getLast? {t : List Char} {d : Char} {x : List Char}
    (h : (normalize_lines t d).getLast? = some x) : is_empty_csv_row x d = false :=
  dropTrailingWhile_getLast? _ _ x h

/-- Re-normalizing a canonically terminated line list changes nothing: the
split recovers the lines plus one trailing empty piece, the empty-line loop
pops that piece, and both loops then stop at the non-blank last line. -/
theorem normalize_lines_intercalate {lines : List (List Char)} {d : Char}
    (hne : lines ≠ [])
    (hnl : ∀ l ∈ lines, '\n' ∉ l)
    (hcr : ∀ l ∈ lines, '\r' ∉ l)
    (hlast : ∀ y, lines.getLast? = some y → is_empty_csv_row y d = false) :
    normalize_lines (['\n'].intercalate lines ++ ['\n']) d = lines := by
  have hycr : '\r' ∉ ['\n'].intercalate lines ++ ['\n'] := by
    intro hm
    rcases List.mem_append.mp hm with h1 | h1
    · rcases mem_intercalate_cases '\n' h1 with h2 | ⟨l, hl, hcl⟩
      · exact absurd h2 (by decide)
      · exact hcr l hl hcl
    · simp at h1
  have hsplit : (['\n'].intercalate lines ++ ['\n']).splitOn '\n' = lines ++ [[]] := by
    rw [← intercalate_concat_nil '\n' hne]
    refine List.splitOn_intercalate (lines ++ [[]]) '\n' ?_ (by simp)
    intro l hl
    rcases List.mem_append.mp hl with h1 | h1
    · exact hnl l h1
    · simp only [List.mem_singleton] at h1
      simp [h1]
  have hx : lines.getLast? = some (lines.getLast hne) := List.getLast?_eq_getLast lines hne
  have hxblank : is_empty_csv_row (lines.getLast hne) d = false := hlast _ hx
  have hxne : lines.getLast hne ≠ [] := by
    intro he
    rw [he] at hxblank
    simp [is_empty_csv_row] at hxblank
  have hxempty : (lines.getLast hne).isEmpty = false := by
    cases hc : lines.getLast hne
    · exact absurd hc hxne
    · rfl
  rw [normalize_lines, unify_newlines_of_no_cr hycr, hsplit,
    dropTrailingWhile_concat_true _ lines [] rfl,
    dropTrailingWhile_eq_self _ lines _ hx hxempty,
    dropTrailingWhile_eq_self _ lines _ hx hxblank]

/-! ### C2: idempotence of CSV normalization -/

/-- C2: `normalize_csv` is idempotent: normalizing already-normalized CSV text
changes nothing. -/
theorem c2_normalize_csv_idempotent (x : String) (d : Char) :
    normalize_csv (normalize_csv x d) d = normalize_csv x d := by
  by_cases h : normalize_lines x.toList d = []
  · have hout : normalize_csv x d = "" := by rw [normalize_csv, if_pos h]
    rw [hout, normalize_csv, if_pos (by rfl)]
  · have hout : normalize_csv x d
        = String.mk (['\n'].intercalate (normalize_lines x.toList d) ++ ['\n']) := by
      rw [normalize_csv, if_neg h]
    rw [hout]
    have hne : normalize_lines x.toList d ≠ [] := h
    have hkey : normalize_lines
        (['\n'].intercalate (normalize_lines x.toList d) ++ ['\n']) d
        = normalize_lines x.toList d :=
      normalize_lines_intercalate hne
        (fun l hm => (mem_normalize_lines hm).1)
        (fun l hm => (mem_normalize_lines hm).2)
        (fun y hy => normalize_lines_getLast? hy)
    rw [normalize_csv,
      show (String.mk (['\n'].intercalate (normalize_lines x.toList d) ++ ['\n'])).toList
        = ['\n'].intercalate (normalize_lines x.toList d) ++ ['\n'] from rfl,
      hkey, if_neg hne]

end XlrdCompare

namespace XlrdCompare

/-! ### C5 and C8: canonical shape of normalized text -/

theorem splitlinesLF_eq (l : List Char) :
    splitlinesLF l = if (l.splitOn '\n').getLast? = some [] then
      (l.splitOn '\n').dropLast else l.splitOn '\n' := rfl

theorem intercalate_newline_no_cr {lines : List (List Char)}
    (hcr : ∀ l ∈ lines, '\r' ∉ l) :
    '\r' ∉ ['\n'].intercalate lines ++ ['\n'] := by
  intro hm
  rcases List.mem_append.mp hm with h1 | h1
  · rcases mem_intercalate_cases '\n' h1 with h2 | ⟨l, hl, hcl⟩
    · exact absurd h2 (by decide)
    · exact hcr l hl hcl
  · simp at h1

theorem splitOn_intercalate_newline {lines : List (List Char)}
    (hne : lines ≠ []) (hnl : ∀ l ∈ lines, '\n' ∉ l) :
    (['\n'].intercalate lines ++ ['\n']).splitOn '\n' = lines ++ [[]] := by
  rw [← intercalate_concat_nil '\n' hne]
  refine List.splitOn_intercalate (lines ++ [[]]) '\n' ?_ (by simp)
  intro l hl
  rcases List.mem_append.mp hl with h1 | h1
  · exact hnl l h1
  · simp only [List.mem_singleton] at h1
    simp [h1]

/-- C5: the output of `normalize_csv` satisfies the CanonicalCsvText invariant:
it contains no carriage return, and it is either empty or consists of lines
rejoined by line feeds with exactly one trailing line feed (so the split on
line feeds ends with one empty piece) whose last line is not blank. -/
theorem c5_normalize_csv_canonical (x : String) (d : Char) :
    '\r' ∉ (normalize_csv x d).toList
    ∧ (normalize_csv x d = ""
      ∨ ∃ init last, (normalize_csv x d).toList.splitOn '\n' = init ++ [last, []]
          ∧ is_empty_csv_row last d = false) := by
  by_cases h : normalize_lines x.toList d = []
  · have hout : normalize_csv x d = "" := by rw [normalize_csv, if_pos h]
    rw [hout]
    exact ⟨by simp, Or.inl rfl⟩
  · have hout : normalize_csv x d
        = String.mk (['\n'].intercalate (normalize_lines x.toList d) ++ ['\n']) := by
      rw [normalize_csv, if_neg h]
    rw [hout]
    have hnl : ∀ l ∈ normalize_lines x.toList d, '\n' ∉ l :=
      fun l hm => (mem_normalize_lines hm).1
    have hcr : ∀ l ∈ normalize_lines x.toList d, '\r' ∉ l :=
      fun l hm => (mem_normalize_lines hm).2
    constructor
    · exact intercalate_newline_no_cr hcr
    · right
      refine ⟨(normalize_lines x.toList d).dropLast, (normalize_lines x.toList d).getLast h,
        ?_, normalize_lines_getLast? (List.getLast?_eq_getLast _ h)⟩
      show (['\n'].intercalate (normalize_lines x.toList d) ++ ['\n']).splitOn '\n' = _
      rw [splitOn_intercalate_newline h hnl]
      conv_lhs => rw [← List.dropLast_append_getLast h]
      rw [List.append_assoc]
      rfl

/-- C8: normalization only removes content from the end: the line list of the
output is a prefix of the line list of the input after line-ending
unification, so every retained line is identical to the corresponding input
line and leading or interior content is never modified. -/
theorem c8_normalize_csv_trailing_only (x : String) (d : Char) :
    splitlinesLF (normalize_csv x d).toList <+: splitlinesLF (unify_newlines x.toList) := by
  by_cases h : normalize_lines x.toList d = []
  · have hout : normalize_csv x d = "" := by rw [normalize_csv, if_pos h]
    rw [hout]
    show ([] : List (List Char)) <+: _
    exact List.nil_prefix
  · have hout : normalize_csv x d
        = String.mk (['\n'].intercalate (normalize_lines x.toList d) ++ ['\n']) := by
      rw [normalize_csv, if_neg h]
    rw [hout]
    have hnl : ∀ l ∈ normalize_lines x.toList d, '\n' ∉ l :=
      fun l hm => (mem_normalize_lines hm).1
    have hLHS : splitlinesLF
        (String.mk (['\n'].intercalate (normalize_lines x.toList d) ++ ['\n'])).toList
        = normalize_lines x.toList d := by
      show splitlinesLF (['\n'].intercalate (normalize_lines x.toList d) ++ ['\n']) = _
      rw [splitlinesLF_eq, splitOn_intercalate_newline h hnl, List.getLast?_concat,
        if_pos rfl, List.dropLast_concat]
    rw [hLHS]
    by_cases hA0 : ((unify_newlines x.toList).splitOn '\n').getLast? = some []
    · have hAne : (unify_newlines x.toList).splitOn '\n' ≠ [] := by
        intro he
        rw [he] at hA0
        simp at hA0
      have hA1 : ((unify_newlines x.toList).splitOn '\n').getLast hAne = [] := by
        have h2 := List.getLast?_eq_getLast ((unify_newlines x.toList).splitOn '\n') hAne
        rw [hA0] at h2
        exact (Option.some_injective _ h2).symm
      have hAdecomp : (unify_newlines x.toList).splitOn '\n'
          = ((unify_newlines x.toList).splitOn '\n').dropLast ++ [[]] := by
        conv_lhs => rw [← List.dropLast_append_getLast hAne]
        rw [hA1]
      have hRHS : splitlinesLF (unify_newlines x.toList)
          = ((unify_newlines x.toList).splitOn '\n').dropLast := by
        rw [splitlinesLF_eq, if_pos hA0]
      rw [hRHS]
      have hL2 : normalize_lines x.toList d
          = dropTrailingWhile (fun l => is_empty_csv_row l d)
              (dropTrailingWhile (fun l => l.isEmpty)
                (((unify_newlines x.toList).splitOn '\n').dropLast)) := by
        rw [normalize_lines]
        conv_lhs => rw [hAdecomp]
        rw [dropTrailingWhile_concat_true _ _ [] rfl]
      rw [hL2]
      exact (dropTrailingWhile_pfx _ _).trans (dropTrailingWhile_pfx _ _)
    · have hRHS : splitlinesLF (unify_newlines x.toList)
          = (unify_newlines x.toList).splitOn '\n' := by
        rw [splitlinesLF_eq, if_neg hA0]
      rw [hRHS]
      exact normalize_lines_pfx x.toList d

end XlrdCompare

namespace XlrdCompare

/-! ### C3: the effective column count -/

theorem foldr_max_concat (l : List Nat) (v : Nat) :
    (l ++ [v]).foldr max 0 = max (l.foldr max 0) v := by
  induction l with
  | nil => simp [Nat.max_comm]
  | cons a l ih => simp [ih, Nat.max_assoc]

theorem foldr_max_append (l₁ l₂ : List Nat) :
    (l₁ ++ l₂).foldr max 0 = max (l₁.foldr max 0) (l₂.foldr max 0) := by
  induction l₁ with
  | nil => simp
  | cons a l ih => simp [ih, Nat.max_assoc]

theorem foldr_max_le {l : List Nat} {b : Nat} (h : ∀ x ∈ l, x ≤ b) :
    l.foldr max 0 ≤ b := by
  induction l with
  | nil => exact Nat.zero_le b
  | cons a l ih =>
    simp only [List.foldr_cons]
    exact Nat.max_le.mpr ⟨h a (List.mem_cons_self a l), ih fun x hx => h x (List.mem_cons_of_mem a hx)⟩

theorem foldr_max_eq_zero {l : List Nat} (h : ∀ x ∈ l, 0 < x)
    (hz : l.foldr max 0 = 0) : l = [] := by
  cases l with
  | nil => rfl
  | cons a l =>
    exfalso
    simp only [List.foldr_cons, Nat.max_eq_zero_iff] at hz
    exact Nat.lt_irrefl 0 (hz.1 ▸ h a (List.mem_cons_self a l))

theorem row_loop_eq (p : Nat → Bool) (n : Nat) :
    (List.range n).foldl (fun row_max colx => if p colx then colx + 1 else row_max) 0
      = (((List.range n).filter p).map (fun colx => colx + 1)).foldr max 0 := by
  induction n with
  | zero => rfl
  | succ n ih =>
    rw [List.range_succ, List.foldl_append, List.filter_append, List.map_append,
      foldr_max_append, ih]
    have hle : (((List.range n).filter p).map (fun colx => colx + 1)).foldr max 0 ≤ n + 1 := by
      refine foldr_max_le ?_
      intro x hx
      rcases List.mem_map.mp hx with ⟨c, hc, rfl⟩
      have := List.mem_range.mp (List.mem_of_mem_filter hc)
      omega
    cases hp : p n
    · simp only [List.foldl_cons, List.foldl_nil, hp, Bool.false_eq_true, if_false,
        List.filter_cons, List.filter_nil, List.map_nil, List.foldr_nil]
      omega
    · simp only [List.foldl_cons, List.foldl_nil, hp, if_true, List.filter_cons,
        List.filter_nil, List.map_cons, List.map_nil, List.foldr_cons, List.foldr_nil]
      omega

theorem outer_loop_eq (g : Nat → Nat) (n : Nat) :
    (List.range n).foldl (fun m r => if m < g r then g r else m) 0
      = ((List.range n).map g).foldr max 0 := by
  induction n with
  | zero => rfl
  | succ n ih =>
    rw [List.range_succ, List.foldl_append, List.map_append]
    simp only [List.map_cons, List.map_nil]
    rw [foldr_max_concat, ih]
    simp only [List.foldl_cons, List.foldl_nil]
    by_cases hlt : ((List.range n).map g).foldr max 0 < g n
    · rw [if_pos hlt]
      omega
    · rw [if_neg hlt]
      omega

theorem foldr_max_flatMap (g : Nat → List Nat) (l : List Nat) :
    (l.flatMap g).foldr max 0
      = (l.map (fun r => (g r).foldr max 0)).foldr max 0 := by
  induction l with
  | nil => rfl
  | cons a l ih =>
    rw [List.flatMap_cons, foldr_max_append, ih, List.map_cons, List.foldr_cons]

theorem nonempty_cols_pos (sheet : Sheet) :
    ∀ x ∈ nonempty_cols sheet, 0 < x := by
  intro x hx
  rcases List.mem_flatMap.mp hx with ⟨rowx, _, hm⟩
  rcases List.mem_map.mp hm with ⟨c, _, rfl⟩
  exact Nat.succ_pos c

/-- C3: `sheet_max_cols` returns 1 plus the maximum over all rows of the column
index of the last cell whose type is neither empty nor blank (equivalently the
maximum of the one-based positions of all non-empty cells); when no row
contains a non-empty cell it returns the sheet's declared column count. -/
theorem c3_sheet_max_cols (sheet : Sheet) :
    sheet_max_cols sheet = if nonempty_cols sheet = [] then sheet.ncols
      else (nonempty_cols sheet).foldr max 0 := by
  have hloop : (List.range sheet.nrows).foldl (fun max_cols rowx =>
      if max_cols < (List.range (sheet.row_len rowx)).foldl (fun row_max colx =>
          if cell_nonempty sheet rowx colx then colx + 1 else row_max) 0
      then (List.range (sheet.row_len rowx)).foldl (fun row_max colx =>
          if cell_nonempty sheet rowx colx then colx + 1 else row_max) 0
      else max_cols) 0 = (nonempty_cols sheet).foldr max 0 := by
    rw [outer_loop_eq (fun rowx => (List.range (sheet.row_len rowx)).foldl
      (fun row_max colx => if cell_nonempty sheet rowx colx then colx + 1 else row_max) 0)
      sheet.nrows]
    rw [nonempty_cols, foldr_max_flatMap]
    congr 1
    refine List.map_congr_left ?_
    intro rowx _
    exact row_loop_eq (fun colx => cell_nonempty sheet rowx colx) (sheet.row_len rowx)
  rw [sheet_max_cols, hloop]
  by_cases h0 : nonempty_cols sheet = []
  · rw [if_pos h0, if_pos (by rw [h0]; rfl)]
  · rw [if_neg h0, if_neg ?_]
    intro hz
    exact h0 (foldr_max_eq_zero (nonempty_cols_pos sheet) hz)

end XlrdCompare

namespace XlrdCompare

/-! ### C4: CSV field quoting -/

theorem replaceAllChar_eq_flatMap (c : Char) (r : List Char) :
    ∀ l : List Char, replaceAllChar c r l = l.flatMap (fun x => if x = c then r else [x]) := by
  intro l
  induction l with
  | nil => rfl
  | cons x xs ih =>
    by_cases hx : x = c
    · rw [replaceAllChar, if_pos hx, List.flatMap_cons, if_pos hx, ih]
    · rw [replaceAllChar, if_neg hx, List.flatMap_cons, if_neg hx, ih, List.singleton_append]

theorem length_le_length_flatMap {f : Char → List Char} (hf : ∀ x, 1 ≤ (f x).length) :
    ∀ l : List Char, l.length ≤ (l.flatMap f).length := by
  intro l
  induction l with
  | nil => exact Nat.le_refl 0
  | cons x xs ih =>
    rw [List.flatMap_cons, List.length_append, List.length_cons]
    have := hf x
    omega

theorem quote_field_needs_iff (s : String) (d : Char) :
    (s.toList.contains d || s.toList.contains '"'
      || s.toList.contains '\r' || s.toList.contains '\n') = true
      ↔ ∃ c ∈ s.toList, c = d ∨ c = '"' ∨ c = '\n' ∨ c = '\r' := by
  simp only [Bool.or_eq_true, List.elem_iff]
  constructor
  · rintro (((h | h) | h) | h)
    · exact ⟨d, h, Or.inl rfl⟩
    · exact ⟨'"', h, Or.inr (Or.inl rfl)⟩
    · exact ⟨'\r', h, Or.inr (Or.inr (Or.inr rfl))⟩
    · exact ⟨'\n', h, Or.inr (Or.inr (Or.inl rfl))⟩
  · rintro ⟨c, hc, (rfl | rfl | rfl | rfl)⟩
    · exact Or.inl (Or.inl (Or.inl hc))
    · exact Or.inl (Or.inl (Or.inr hc))
    · exact Or.inr hc
    · exact Or.inl (Or.inr hc)

/-- C4: `quote_field` returns the field wrapped in quote characters with every
internal quote character doubled precisely when the field contains the
delimiter, a quote character, or a newline character (line feed or carriage
return); otherwise, and only otherwise, it returns the field verbatim. -/
theorem c4_quote_field (s : String) (d : Char) :
    (quote_field (some s) d
        = "\"" ++ String.mk (s.toList.flatMap
            (fun c => if c = '"' then ['"', '"'] else [c])) ++ "\""
      ↔ ∃ c ∈ s.toList, c = d ∨ c = '"' ∨ c = '\n' ∨ c = '\r')
    ∧ (quote_field (some s) d = s
      ↔ ¬∃ c ∈ s.toList, c = d ∨ c = '"' ∨ c = '\n' ∨ c = '\r') := by
  have hlenX : s.toList.length
      ≤ (s.toList.flatMap (fun c => if c = '"' then ['"', '"'] else [c])).length := by
    refine length_le_length_flatMap ?_ s.toList
    intro x
    by_cases hx : x = '"'
    · rw [if_pos hx]
      exact Nat.le_of_lt Nat.one_lt_two
    · rw [if_neg hx]
      exact Nat.le_refl 1
  have hwrap : ("\"" ++ String.mk (s.toList.flatMap
      (fun c => if c = '"' then ['"', '"'] else [c])) ++ "\"").data
      = (['"'] ++ s.toList.flatMap (fun c => if c = '"' then ['"', '"'] else [c])) ++ ['"'] := by
    rw [String.data_append, String.data_append]
  by_cases h : ∃ c ∈ s.toList, c = d ∨ c = '"' ∨ c = '\n' ∨ c = '\r'
  · have hb := (quote_field_needs_iff s d).mpr h
    have hq : quote_field (some s) d = "\"" ++ String.mk (s.toList.flatMap
        (fun c => if c = '"' then ['"', '"'] else [c])) ++ "\"" := by
      simp only [quote_field]
      rw [if_pos hb, replaceAllChar_eq_flatMap]
    refine ⟨iff_of_true hq h, iff_of_false ?_ (not_not_intro h)⟩
    intro he
    rw [hq] at he
    have hdata := congrArg String.data he
    rw [hwrap] at hdata
    have hlen := congrArg List.length hdata
    rw [List.length_append, List.length_append] at hlen
    have hsl : s.data.length = s.toList.length := rfl
    rw [hsl] at hlen
    simp only [List.length_cons, List.length_singleton] at hlen
    omega
  · have hb : (s.toList.contains d || s.toList.contains '"'
        || s.toList.contains '\r' || s.toList.contains '\n') = false := by
      cases hbc : (s.toList.contains d || s.toList.contains '"'
        || s.toList.contains '\r' || s.toList.contains '\n')
      · rfl
      · exact absurd ((quote_field_needs_iff s d).mp hbc) h
    have hq : quote_field (some s) d = s := by
      simp only [quote_field]
      rw [if_neg (by rw [hb]; exact Bool.false_ne_true)]
    refine ⟨iff_of_false ?_ h, iff_of_true hq h⟩
    intro he
    rw [hq] at he
    have hdata := congrArg String.data he
    rw [hwrap] at hdata
    have hmem : '"' ∈ s.data := by
      rw [hdata]
      exact List.mem_append_left _ (List.mem_append_left _ (List.mem_singleton_self '"'))
    exact h ⟨'"', hmem, Or.inr (Or.inl rfl)⟩

/-- Witness for C4: a field containing the delimiter is wrapped in quotes. -/
theorem c4_witness : quote_field (some "a,b") ','
    = "\"" ++ String.mk ("a,b".toList.flatMap
        (fun c => if c = '"' then ['"', '"'] else [c])) ++ "\"" :=
  (c4_quote_field "a,b" ',').1.mpr ⟨',', by decide, Or.inl rfl⟩

end XlrdCompare

namespace XlrdCompare

/-! ### C6: shape of the rendered sheet -/

theorem foldl_append_singleton {α β : Type} (g : α → β) (l : List α) :
    ∀ init : List β, l.foldl (fun acc x => acc ++ [g x]) init = init ++ l.map g := by
  induction l with
  | nil => intro init; simp
  | cons x xs ih =>
    intro init
    rw [List.foldl_cons, ih, List.map_cons]
    simp

theorem string_foldl_append (l : List String) :
    ∀ acc : String, l.foldl (fun r s => r ++ s) acc = acc ++ String.join l := by
  induction l with
  | nil =>
    intro acc
    rw [List.foldl_nil]
    exact (String.append_empty acc).symm
  | cons x xs ih =>
    intro acc
    rw [List.foldl_cons, ih]
    have hjoin : String.join (x :: xs) = x ++ String.join xs := by
      show List.foldl (fun r s => r ++ s) "" (x :: xs) = _
      rw [List.foldl_cons, String.empty_append, ih x]
    rw [hjoin, String.append_assoc]

theorem foldl_append_join {α : Type} (g : α → String) (l : List α) :
    ∀ acc : String, l.foldl (fun buf x => buf ++ g x) acc = acc ++ String.join (l.map g) := by
  induction l with
  | nil =>
    intro acc
    rw [List.foldl_nil, List.map_nil]
    exact (String.append_empty acc).symm
  | cons x xs ih =>
    intro acc
    rw [List.foldl_cons, ih, List.map_cons]
    have hjoin : String.join (g x :: xs.map g) = g x ++ String.join (xs.map g) := by
      show List.foldl (fun r s => r ++ s) "" (g x :: xs.map g) = _
      rw [List.foldl_cons, String.empty_append, string_foldl_append (xs.map g) (g x)]
    rw [hjoin, String.append_assoc]

/-- C6: `sheet_to_csv_string` emits exactly one record per row of the sheet in
row order, each terminated by a single newline (including the last); every
record joins exactly `sheet_max_cols sheet` quoted fields with the delimiter
(uniform column count, no trailing-row suppression at this stage); columns at
or beyond a row's declared length are emitted as the empty field. -/
theorem c6_sheet_to_csv_rows (ext : Ext) (book : Book) (sheet : Sheet)
    (date_format float_format : String) (d : Char) :
    sheet_to_csv_string ext book sheet date_format float_format d
        = String.join ((List.range sheet.nrows).map (fun rowx =>
            String.intercalate (String.singleton d)
              (sheet_row_fields ext book sheet date_format float_format d rowx) ++ "\n"))
    ∧ (∀ rowx, (sheet_row_fields ext book sheet date_format float_format d rowx).length
        = sheet_max_cols sheet)
    ∧ (∀ rowx colx, sheet.row_len rowx ≤ colx → colx < sheet_max_cols sheet →
        (sheet_row_fields ext book sheet date_format float_format d rowx).getD colx "x"
          = "") := by
  refine ⟨?_, fun rowx => ?_, fun rowx colx h1 h2 => ?_⟩
  · simp only [sheet_to_csv_string, sheet_row_fields]
    have hin : ∀ rowx : Nat, (List.range (sheet_max_cols sheet)).foldl
        (fun fields colx => fields ++ [quote_field (some (if sheet.row_len rowx ≤ colx then ""
          else format_cell ext book sheet rowx colx date_format float_format)) d]) []
        = (List.range (sheet_max_cols sheet)).map
            (fun colx => quote_field (some (if sheet.row_len rowx ≤ colx then ""
              else format_cell ext book sheet rowx colx date_format float_format)) d) := by
      intro rowx
      rw [foldl_append_singleton, List.nil_append]
    simp only [hin]
    rw [foldl_append_join, String.empty_append]
  · rw [sheet_row_fields, List.length_map, List.length_range]
  · rw [sheet_row_fields]
    have hlen : colx < ((List.range (sheet_max_cols sheet)).map
        (fun colx => quote_field (some (if sheet.row_len rowx ≤ colx then ""
          else format_cell ext book sheet rowx colx date_format float_format)) d)).length := by
      rw [List.length_map, List.length_range]
      exact h2
    rw [List.getD_eq_getElem _ _ hlen, List.getElem_map, List.getElem_range, if_pos h1]
    rfl

/-- Witness for C6: in the short second row of `sheetTest`, the column beyond
the declared row length is emitted as the empty field. -/
theorem c6_witness :
    (sheet_row_fields extTest bookTest sheetTest "" "" ',' 1).getD 1 "x" = "" :=
  (c6_sheet_to_csv_rows extTest bookTest sheetTest "" "" ',').2.2 1 1 (by decide) (by decide)

end XlrdCompare
